import Mathlib

/-!
Verification of the `llm_classifier` repository against its natural-language
specification.  The Python sources under `src/llm_classifier/` are shallowly
embedded as executable Lean definitions: pure helpers become Lean functions,
the SQLModel session becomes an explicit database state threaded through the
functions, Python exceptions become `Except`/`Option` results, and the
external collaborators (the LLM call, `mimetypes.guess_type`, `json.loads`)
are modelled by explicit parameters or by small executable models of the
stdlib behaviour actually exercised.
-/

namespace LC

/-! ## Characters that are awkward to write literally -/

/-- The double-quote character. -/
def qc : Char := Char.ofNat 34

/-- The single-quote character. -/
def sq : Char := Char.ofNat 39

/-- The backslash character. -/
def bs : Char := Char.ofNat 92

/-- The backtick character (used by markdown code fences). -/
def bt : Char := Char.ofNat 96

/-! ## A model of Python JSON values and of `json.loads`

`validators.get_json` ends in a call to the stdlib `json.loads`.  We model
the JSON values returned by it (`dict`/`list`/`str`/`int`/`bool`/`None`)
and give an executable fuel-based parser for the integer fragment of JSON
(floats are not used anywhere in the claims). -/

inductive Json where
  | null : Json
  | boolean (b : Bool) : Json
  | num (n : Int) : Json
  | str (s : String) : Json
  | arr (elems : List Json) : Json
  | obj (members : List (String × Json)) : Json

/-- JSON whitespace accepted by `json.loads` between tokens. -/
def isJsonWs (c : Char) : Bool :=
  c = ' ' ∨ c = Char.ofNat 9 ∨ c = Char.ofNat 10 ∨ c = Char.ofNat 13

def skipWs (cs : List Char) : List Char := cs.dropWhile isJsonWs

def digitsToNat (ds : List Char) : Nat :=
  ds.foldl (fun a c => a * 10 + (c.toNat - 48)) 0

/-- Parse a decimal natural number prefix. -/
def parseNatTok (cs : List Char) : Option (Nat × List Char) :=
  let ds := cs.takeWhile Char.isDigit
  if ds.isEmpty then none else some (digitsToNat ds, cs.drop ds.length)

/-- Parse a JSON integer (the only numeric shape the repository's data uses). -/
def parseIntTok (cs : List Char) : Option (Int × List Char) :=
  match cs with
  | [] => none
  | c :: rest =>
    if c = '-' then (parseNatTok rest).map (fun p => (-(p.1 : Int), p.2))
    else (parseNatTok (c :: rest)).map (fun p => ((p.1 : Int), p.2))

/-- Parse the body of a JSON string after the opening quote; handles the
simple escapes used in practice. -/
def parseJString : Nat → List Char → Option (List Char × List Char)
  | 0, _ => none
  | _, [] => none
  | fuel + 1, c :: rest =>
    if c = qc then some ([], rest)
    else if c = bs then
      match rest with
      | [] => none
      | e :: rest2 =>
        let ec := if e = 'n' then Char.ofNat 10
          else if e = 't' then Char.ofNat 9
          else if e = 'r' then Char.ofNat 13
          else e
        (parseJString fuel rest2).map (fun p => (ec :: p.1, p.2))
    else (parseJString fuel rest).map (fun p => (c :: p.1, p.2))

/-- Parse the members of a JSON object after the opening brace, given a
parser `pv` for values. -/
def parseMembers (pv : List Char → Option (Json × List Char)) :
    Nat → List Char → Option (List (String × Json) × List Char)
  | 0, _ => none
  | fuel + 1, cs =>
    match skipWs cs with
    | [] => none
    | c :: rest =>
      if c = qc then
        match parseJString (rest.length + 1) rest with
        | none => none
        | some (key, r1) =>
          match skipWs r1 with
          | [] => none
          | d :: r2 =>
            if d = ':' then
              match pv r2 with
              | none => none
              | some (v, r3) =>
                match skipWs r3 with
                | [] => none
                | e :: r4 =>
                  if e = ',' then
                    (parseMembers pv fuel r4).map
                      (fun p => ((String.mk key, v) :: p.1, p.2))
                  else if e = Char.ofNat 125 then
                    some ([(String.mk key, v)], r4)
                  else none
            else none
      else none

/-- Parse the elements of a JSON array after the opening bracket, given a
parser `pv` for values. -/
def parseElems (pv : List Char → Option (Json × List Char)) :
    Nat → List Char → Option (List Json × List Char)
  | 0, _ => none
  | fuel + 1, cs =>
    match pv cs with
    | none => none
    | some (v, r1) =>
      match skipWs r1 with
      | [] => none
      | e :: r2 =>
        if e = ',' then
          (parseElems pv fuel r2).map (fun p => (v :: p.1, p.2))
        else if e = ']' then some ([v], r2)
        else none

/-- Fuel-indexed JSON value parser. -/
def parseValue : Nat → List Char → Option (Json × List Char)
  | 0, _ => none
  | fuel + 1, input =>
    match skipWs input with
    | [] => none
    | c :: rest =>
      if c = Char.ofNat 123 then
        match skipWs rest with
        | [] => none
        | d :: r2 =>
          if d = Char.ofNat 125 then some (.obj [], r2)
          else
            (parseMembers (parseValue fuel) fuel (d :: r2)).map
              (fun p => (Json.obj p.1, p.2))
      else if c = '[' then
        match skipWs rest with
        | [] => none
        | d :: r2 =>
          if d = ']' then some (.arr [], r2)
          else
            (parseElems (parseValue fuel) fuel (d :: r2)).map
              (fun p => (Json.arr p.1, p.2))
      else if c = qc then
        (parseJString (rest.length + 1) rest).map
          (fun p => (Json.str (String.mk p.1), p.2))
      else if c = 'n' ∧ rest.take 3 = ['u', 'l', 'l'] then
        some (.null, rest.drop 3)
      else if c = 't' ∧ rest.take 3 = ['r', 'u', 'e'] then
        some (.boolean true, rest.drop 3)
      else if c = 'f' ∧ rest.take 4 = ['a', 'l', 's', 'e'] then
        some (.boolean false, rest.drop 4)
      else
        (parseIntTok (c :: rest)).map (fun p => (Json.num p.1, p.2))

/-- Model of the stdlib collaborator `json.loads` on the JSON fragment the
repository exchanges with the provider: returns `none` where Python raises
`json.JSONDecodeError` (including on trailing garbage). -/
def json_loads (cs : List Char) : Option Json :=
  match parseValue (cs.length + 1) cs with
  | none => none
  | some (v, rest) => if (skipWs rest).isEmpty then some v else none

/-! ## Model of `validators.get_json` (fence stripping)

Source (validators.py):
```
match = re.search(r'```\s*json\s*(.*?)\s*```', content, re.DOTALL | re.IGNORECASE)
if match:
    return json.loads(match.group(1).strip())
return json.loads(content.strip().strip('"\''))
```
The lazy group `(.*?)` followed by the greedy `\s*` and the closing fence
captures, up to surrounding whitespace, exactly the text before the first
closing fence; since the capture is `.strip()`-ped immediately afterwards we
model it as "take until the first occurrence of three backticks, then
strip". -/

/-- Python `\s` whitespace class (ASCII part, which is all the inputs use). -/
def isPySpace (c : Char) : Bool :=
  c = ' ' ∨ c = Char.ofNat 9 ∨ c = Char.ofNat 10 ∨ c = Char.ofNat 13 ∨
    c = Char.ofNat 11 ∨ c = Char.ofNat 12

/-- Python `str.strip()` (no arguments): drop whitespace from both ends. -/
def pyStrip (cs : List Char) : List Char :=
  ((cs.dropWhile isPySpace).reverse.dropWhile isPySpace).reverse

/-- Python `str.strip('"\'')`: drop quote characters from both ends. -/
def stripQuotes (cs : List Char) : List Char :=
  let isQ : Char → Bool := fun c => c = qc ∨ c = sq
  ((cs.dropWhile isQ).reverse.dropWhile isQ).reverse

/-- Split at the first occurrence of three consecutive backticks: returns the
text before the fence and the text after it. -/
def fenceCloseSplit : List Char → Option (List Char × List Char)
  | [] => none
  | c :: rest =>
    if c = bt ∧ rest.take 2 = [bt, bt] then some ([], rest.drop 2)
    else (fenceCloseSplit rest).map (fun p => (c :: p.1, p.2))

/-- Try to match the fenced-JSON pattern starting exactly here; on success
return the captured group (text between the fence header and the first
closing fence). -/
def fenceMatchAt (cs : List Char) : Option (List Char) :=
  match cs with
  | c1 :: c2 :: c3 :: rest =>
    if c1 = bt ∧ c2 = bt ∧ c3 = bt then
      match (rest.dropWhile isPySpace) with
      | j :: s :: o :: n :: r2 =>
        if j.toLower = 'j' ∧ s.toLower = 's' ∧ o.toLower = 'o' ∧ n.toLower = 'n' then
          (fenceCloseSplit (r2.dropWhile isPySpace)).map (fun p => p.1)
        else none
      | _ => none
    else none
  | _ => none

/-- Leftmost search for the fenced-JSON pattern, as `re.search` does. -/
def fenceSearch : List Char → Option (List Char)
  | [] => none
  | c :: rest =>
    match fenceMatchAt (c :: rest) with
    | some g => some g
    | none => fenceSearch rest

/-- Model of `validators.get_json`: extract JSON content from a markdown
code fence if present, otherwise strip one layer of surrounding quotes;
`none` models a raised `JSONDecodeError`. -/
def get_json (content : String) : Option Json :=
  match fenceSearch content.data with
  | some g => json_loads (pyStrip g)
  | none => json_loads (stripQuotes (pyStrip content.data))

/-! ## Python field values

Values a record (`ClassificationInput`) field can hold: strings, integers,
booleans, `bytes`, and `None`.  This is the value vocabulary used by the
prompt renderer and the media-encoding loop of
`classifier.process_single_input`. -/

inductive PyVal where
  | vstr (s : String) : PyVal
  | vint (n : Int) : PyVal
  | vbool (b : Bool) : PyVal
  | vbytes (data : List Nat) : PyVal
  | vnone : PyVal
deriving DecidableEq

/-- One hexadecimal digit, lowercase, as CPython prints escape codes. -/
def hexDigit (n : Nat) : Char :=
  if n < 10 then Char.ofNat (48 + n) else Char.ofNat (87 + n)

/-- Escape one byte of a `bytes` repr, given the quote byte in use. -/
def bytesReprByte (quote : Nat) (b : Nat) : List Char :=
  if b = 92 then [bs, bs]
  else if b = quote then [bs, Char.ofNat quote]
  else if b = 9 then [bs, 't']
  else if b = 10 then [bs, 'n']
  else if b = 13 then [bs, 'r']
  else if 32 ≤ b ∧ b < 127 then [Char.ofNat b]
  else [bs, 'x', hexDigit (b / 16), hexDigit (b % 16)]

/-- Model of CPython `str(b)`/`repr(b)` for a bytes object `b`: `b'...'`
with single quotes (double quotes when the data contains a single quote and
no double quote), escaping per byte. -/
def bytesRepr (data : List Nat) : String :=
  let quote : Nat := if data.contains 39 ∧ ¬ data.contains 34 then 34 else 39
  String.mk ('b' :: Char.ofNat quote ::
    (data.flatMap (bytesReprByte quote) ++ [Char.ofNat quote]))

/-- Model of Python `format(v, '')`/`str(v)` on the values above, as used by
`str.format` when a field value is substituted for a placeholder. -/
def str_of : PyVal → String
  | .vstr s => s
  | .vint n => toString n
  | .vbool b => if b then "True" else "False"
  | .vbytes data => bytesRepr data
  | .vnone => "None"

/-- Association-list lookup keyed by the first component (models dict/row
lookup; Python dicts have unique keys, so first match is the match). -/
def alistGet {κ α : Type} [DecidableEq κ] (l : List (κ × α)) (k : κ) : Option α :=
  (l.find? (fun p => p.1 = k)).map (fun p => p.2)

/-- Word characters of the regex class `\w` (ASCII, which is what the
repository's field names use). -/
def isWordChar (c : Char) : Bool := c.isAlphanum ∨ c = '_'

/-- Scanner for `re.findall(r'\{(\w+)\}', prompt_template)`: leftmost,
non-overlapping matches of a brace-wrapped word.  The fuel argument only
makes the recursion structural; every step consumes at least one character,
so `fuel = length` is always enough. -/
def findPlaceholdersF : Nat → List Char → List String
  | 0, _ => []
  | _, [] => []
  | fuel + 1, c :: rest =>
    if c = Char.ofNat 123 then
      let word := rest.takeWhile isWordChar
      if ¬ word.isEmpty ∧ (rest.drop word.length).take 1 = [Char.ofNat 125] then
        String.mk word :: findPlaceholdersF fuel (rest.drop (word.length + 1))
      else
        findPlaceholdersF fuel rest
    else
      findPlaceholdersF fuel rest

/-- Model of `re.findall(r'\{(\w+)\}', prompt_template)`. -/
def findPlaceholders (cs : List Char) : List String :=
  findPlaceholdersF cs.length cs

/-- Model of Python `prompt_template.format(**format_args)` on templates of
the shape the repository uses: double braces are the escapes `{{`/`}}`, a
brace-wrapped name is replaced by `str` of the bound value.  A name with no
binding raises `KeyError` in Python, modelled by `none`; likewise a stray
unclosed brace (`ValueError`). -/
def pyFormatF (args : List (String × PyVal)) : Nat → List Char → Option (List Char)
  | _, [] => some []
  | 0, _ :: _ => none
  | fuel + 1, c :: rest =>
    if c = Char.ofNat 123 then
      if rest.take 1 = [Char.ofNat 123] then
        (pyFormatF args fuel (rest.drop 1)).map (fun out => Char.ofNat 123 :: out)
      else
        let name := rest.takeWhile (fun d => d ≠ Char.ofNat 125)
        if (rest.drop name.length).take 1 = [Char.ofNat 125] then
          match alistGet args (String.mk name) with
          | none => none
          | some v =>
            (pyFormatF args fuel (rest.drop (name.length + 1))).map
              (fun out => (str_of v).data ++ out)
        else none
    else if c = Char.ofNat 125 then
      if rest.take 1 = [Char.ofNat 125] then
        (pyFormatF args fuel (rest.drop 1)).map (fun out => Char.ofNat 125 :: out)
      else none
    else
      (pyFormatF args fuel rest).map (fun out => c :: out)

/-- Python `template.format(**args)` (see `pyFormatF`); the fuel only makes
the recursion structural and `length` is always enough, each step consuming
at least one character. -/
def pyFormat (args : List (String × PyVal)) (cs : List Char) : Option (List Char) :=
  pyFormatF args cs.length cs

/-! ## Model of `validators.get_placeholders` and `TemplateError` -/

/-- The SQLModel-internal field names excluded by the source
(`'id', 'input_id', 'classification_input'`). -/
def internalFields : List String := ["id", "input_id", "classification_input"]

/-- A model class is described by its `model_fields`: field name paired with
the `is_required()` flag. -/
abbrev ModelFields := List (String × Bool)

/-- Model of `validators.get_placeholders(prompt_template, model)`.
`TemplateError(col, model)` carries the offending column name, so the error
value here is that column name. -/
def get_placeholders (prompt_template : String) (model : ModelFields) :
    Except String (List String) :=
  let placeholders := findPlaceholders prompt_template.data
  let fieldNames := model.map (fun f => f.1)
  match placeholders.filter (fun col => ¬ fieldNames.contains col) with
  | badCol :: _ => .error badCol
  | [] =>
    let requiredFields :=
      (model.filter (fun f => f.2 ∧ ¬ internalFields.contains f.1)).map (fun f => f.1)
    match requiredFields.filter (fun f => ¬ placeholders.contains f) with
    | missing :: _ => .error missing
    | [] => .ok placeholders

/-! ## Base64 and the media-encoding loop of `process_single_input` -/

/-- The base64 alphabet. -/
def b64Alphabet : List Char :=
  "ABCDEFGHIJKLMNOPQRSTUVWXYZabcdefghijklmnopqrstuvwxyz0123456789+/".data

def b64Char (n : Nat) : Char := b64Alphabet.getD n 'A'

/-- Model of `base64.b64encode` (standard alphabet, `=` padding). -/
def base64Encode : List Nat → List Char
  | [] => []
  | [a] => [b64Char (a / 4), b64Char (a % 4 * 16), '=', '=']
  | [a, b] => [b64Char (a / 4), b64Char (a % 4 * 16 + b / 16), b64Char (b % 16 * 4), '=']
  | a :: b :: c :: rest =>
    b64Char (a / 4) :: b64Char (a % 4 * 16 + b / 16) ::
      b64Char (b % 16 * 4 + c / 64) :: b64Char (c % 64) :: base64Encode rest

/-- The media attachment string built for one bytes field, as in
`classifier.process_single_input`:
`f"data:{mime_type};base64,{base64.b64encode(field_value).decode('utf-8')}"`
with `mime_type = mimetypes.guess_type(field_name)[0] or
'application/octet-stream'`.  `guess` models the stdlib collaborator
`mimetypes.guess_type`, which consults only the field NAME. -/
def mediaItem (guess : String → Option String) (fieldName : String)
    (data : List Nat) : String :=
  "data:" ++ (guess fieldName).getD "application/octet-stream" ++ ";base64," ++
    String.mk (base64Encode data)

/-- The media-encoding loop of `process_single_input`: iterate the record's
fields in order and collect an attachment for every bytes-valued field. -/
def mediaDataOf (guess : String → Option String)
    (fields : List (String × PyVal)) : List String :=
  fields.filterMap (fun f =>
    match f.2 with
    | .vbytes data => some (mediaItem guess f.1 data)
    | _ => none)

/-! ## Model of `parser.get_gemini_schema`

`model_class.model_json_schema()` gives, per property, either a direct
`{"type": t}`, an `anyOf` list of type names (for `Optional` fields, where
one entry is `"null"`), or neither.  `get_gemini_schema` maps those through
`get_type_info` and filters the SQLModel-internal fields. -/

inductive FieldInfo where
  | typed (t : String) : FieldInfo
  | anyOf (ts : List String) : FieldInfo
  | other : FieldInfo
deriving DecidableEq

/-- The relevant content of `model_class.model_json_schema()`. -/
structure PySchema where
  properties : List (String × FieldInfo)
  required : List String
deriving DecidableEq

/-- Provider-facing descriptor: each property reduced to `{"type": t}`. -/
structure GeminiSchema where
  properties : List (String × String)
  required : List String
deriving DecidableEq

/-- Model of the inner `get_type_info` of `parser.get_gemini_schema`. -/
def get_type_info : FieldInfo → String
  | .typed t => t
  | .anyOf ts =>
    match ts.filter (fun t => t ≠ "null") with
    | [] => "string"
    | t :: _ => t
  | .other => "string"

/-- Model of `parser.get_gemini_schema`. -/
def get_gemini_schema (schema : PySchema) : GeminiSchema :=
  { properties :=
      (schema.properties.filter (fun p => ¬ internalFields.contains p.1)).map
        (fun p => (p.1, get_type_info p.2))
    required := schema.required.filter (fun f => ¬ internalFields.contains f) }

/-! ## Model of pydantic validation (`model_class.model_validate`)

For the round-trip claim the result schemas are built from string, integer
and boolean fields, each either required or `Optional` with default
`None`. -/

inductive FType where
  | fstr : FType
  | fint : FType
  | fbool : FType
deriving DecidableEq

/-- One caller-declared result field: name, primitive type, required flag
(`required = false` means `Optional[...] = None`). -/
structure FieldSpec where
  name : String
  ty : FType
  required : Bool
deriving DecidableEq

/-- JSON-schema type name pydantic emits for each primitive. -/
def typeName : FType → String
  | .fstr => "string"
  | .fint => "integer"
  | .fbool => "boolean"

/-- The `model_json_schema()` of a model built from such fields: a required
field gets a direct type, an `Optional` field gets
`anyOf [its type, "null"]`, and only required fields are listed in
`required`. -/
def json_schema_of (fields : List FieldSpec) : PySchema :=
  { properties := fields.map (fun f =>
      (f.name, if f.required then FieldInfo.typed (typeName f.ty)
               else FieldInfo.anyOf [typeName f.ty, "null"]))
    required := (fields.filter (fun f => f.required)).map (fun f => f.name) }

/-- Validate one JSON value against a declared primitive type, returning the
typed field value (`none` = pydantic `ValidationError`). -/
def coerceField : FType → Json → Option PyVal
  | .fstr, .str s => some (.vstr s)
  | .fint, .num n => some (.vint n)
  | .fbool, .boolean b => some (.vbool b)
  | _, _ => none

/-- `Option`-monad map over a list, failing if any element fails. -/
def mapOpt {α β : Type} (f : α → Option β) : List α → Option (List β)
  | [] => some []
  | a :: as =>
    match f a with
    | none => none
    | some b => (mapOpt f as).map (fun bs => b :: bs)

/-- Model of `model_class.model_validate(parsed_json)` for a model described
by `fields`: the document must be a JSON object; each required field must be
present with a value of its type; an absent optional field defaults to
`None`; extra keys are ignored (pydantic's default). -/
def model_validate (fields : List FieldSpec) (doc : Json) :
    Option (List (String × Option PyVal)) :=
  match doc with
  | .obj members =>
    mapOpt (fun f =>
      match alistGet members f.name with
      | some v => (coerceField f.ty v).map (fun pv => (f.name, some pv))
      | none => if f.required then none else some (f.name, none)) fields
  | _ => none

/-- Model of `parser.get_model_from_json`: unwrap fences/quotes via
`get_json`, then validate (`none` models a raised
`JSONDecodeError`/`ValidationError`). -/
def get_model_from_json (content : String) (fields : List FieldSpec) :
    Option (List (String × Option PyVal)) :=
  match get_json content with
  | none => none
  | some parsed => model_validate fields parsed

/-! ## Model of the batch coordinator (`classifier.process_single_input`,
`classifier.classify_inputs`)

The SQLModel session is modelled as an explicit database state: the
`ClassificationInput` rows keyed by id, and the `ClassificationResponse`
rows keyed by `input_id`.  A persisted response carries the field values of
the classification result (`ClassificationResponse(**result.model_dump())`).
The LLM round-trip `classify_text` never raises (its body catches every
exception and returns `None`), so it is passed in as a pure function from
the rendered prompt and media list to an optional result. -/

/-- A classification result / persisted response row: field name → value. -/
abbrev Resp := List (String × PyVal)

/-- One `ClassificationInput` row: its fields in declaration order. -/
structure InputRec where
  fields : List (String × PyVal)
deriving DecidableEq

/-- The database state visible to the coordinator. -/
structure DB where
  inputs : List (Nat × InputRec)
  responses : List (Nat × Resp)
deriving DecidableEq

/-- The Python exceptions `process_single_input` can raise: the
`ValueError(f"Input with id {input_id} not found")` for a missing record,
`TemplateError(col)` from `get_placeholders`, and a `KeyError`/`ValueError`
from `str.format` (impossible once the template validated, but part of the
surface). -/
inductive PyErr where
  | valueErr (input_id : Nat) : PyErr
  | templateErr (col : String) : PyErr
  | formatErr : PyErr
deriving DecidableEq

/-- `getattr(input, placeholder)`; the placeholder set was validated against
the model's fields, so on instances the attribute exists (`.vnone`
otherwise, unreachable for validated templates). -/
def getattrOf (inp : InputRec) (name : String) : PyVal :=
  (alistGet inp.fields name).getD .vnone

/-- The rendered prompt of `process_single_input`:
`prompt_template.format(**format_args)` where `format_args` binds each
placeholder to the record's attribute. -/
def renderPrompt (prompt_template : String) (placeholders : List String)
    (inp : InputRec) : Option String :=
  (pyFormat (placeholders.map (fun p => (p, getattrOf inp p)))
    prompt_template.data).map String.mk

/-- Model of `classifier.process_single_input`.

* `classify` models `classify_text (prompt, model_class, media_data)`: it
  is total because `classify_text` catches every exception and returns
  `None` on failure; the second argument is `None` when no media was found.
* `guess` models `mimetypes.guess_type`.
* `model` is `type(input).model_fields` (shared by every row).

The result-persisting block re-checks for an existing response for this
`input_id` and inserts only if none exists; its surrounding
`try/except Exception` catches storage errors, which the pure state model
cannot raise, so that `except` branch is unreachable here. -/
def process_single_input
    (classify : String → Option (List String) → Option Resp)
    (guess : String → Option String) (model : ModelFields)
    (input_id : Nat) (prompt_template : String) (db : DB) : Except PyErr DB :=
  match alistGet db.inputs input_id with
  | none => .error (.valueErr input_id)
  | some inp =>
    match get_placeholders prompt_template model with
    | .error col => .error (.templateErr col)
    | .ok placeholders =>
      match renderPrompt prompt_template placeholders inp with
      | none => .error .formatErr
      | some current_prompt =>
        let media_data := mediaDataOf guess inp.fields
        match classify current_prompt
            (if media_data.isEmpty then none else some media_data) with
        | none => .ok db
        | some result =>
          match alistGet db.responses input_id with
          | some _ => .ok db
          | none =>
            .ok { db with responses := db.responses ++ [(input_id, result)] }

/-- The per-record loop body of `classify_inputs.process_all`: the
`try/except Exception` absorbs any exception from `process_single_input`
and leaves the state as it was. -/
def processAllStep
    (classify : String → Option (List String) → Option Resp)
    (guess : String → Option String) (model : ModelFields)
    (prompt_template : String) (db : DB) (input_id : Nat) : DB :=
  match process_single_input classify guess model input_id prompt_template db with
  | .ok db2 => db2
  | .error _ => db

/-- Model of `classifier.classify_inputs`: run every id in order, absorbing
per-record exceptions; the function itself returns normally, so the
`Except` layer (what its caller can observe) is always `.ok`. -/
def classify_inputs
    (classify : String → Option (List String) → Option Resp)
    (guess : String → Option String) (model : ModelFields)
    (input_ids : List Nat) (prompt_template : String) (db : DB) :
    Except PyErr DB :=
  .ok (input_ids.foldl (processAllStep classify guess model prompt_template) db)

/-! ## Model of `classify_text`'s retry behaviour

`classify_text` is decorated with
`@retry(retry=retry_if_exception(should_retry_error), stop=stop_after_attempt(3), wait=...)`
but its body wraps everything in `try: ... except Exception: return None`.
We model one attempt as the outcome of the underlying `acompletion` call
(rate-limit error, other exception, or a successful parsed result) pushed
through that `try/except`, and the tenacity loop as a recursion over the
remaining attempt budget. -/

/-- Outcome of the `acompletion(...)` network call on one attempt. -/
inductive CallOutcome where
  | rateLimit : CallOutcome
  | otherErr : CallOutcome
  | success (r : Resp) : CallOutcome
deriving DecidableEq

/-- The exception vocabulary seen by tenacity. -/
inductive PyExc where
  | rateLimitError : PyExc
  | otherError : PyExc
deriving DecidableEq

/-- Model of `classifier.should_retry_error`. -/
def should_retry_error : PyExc → Bool
  | .rateLimitError => true
  | .otherError => false

/-- The `acompletion` call as the raising/returning event tenacity would
have to observe. -/
def acompletionResult : CallOutcome → Except PyExc Resp
  | .rateLimit => .error .rateLimitError
  | .otherErr => .error .otherError
  | .success r => .ok r

/-- One attempt of `classify_text`'s body: the `try` block runs the network
call and the parse, and `except Exception` catches EVERY exception —
including `RateLimitError` — printing and returning `None`.  Consequently
the body never lets an exception reach the decorator. -/
def classifyTextAttempt (o : CallOutcome) : Except PyExc (Option Resp) :=
  match acompletionResult o with
  | .ok r => .ok (some r)
  | .error _ => .ok none

/-- Model of the tenacity loop with `stop_after_attempt`: run the wrapped
body; a normal return ends the loop; a raised exception is retried while
`should_retry_error` accepts it and attempts remain, and is re-raised
otherwise (tenacity wraps the final exception in `RetryError`; the
distinction does not matter here).  Returns the result together with the
number of attempts made.  `n` counts the attempts already made. -/
def retryCall (body : Nat → Except PyExc (Option Resp)) :
    Nat → Nat → Except PyExc (Option Resp) × Nat
  | n, 0 => (.error .otherError, n)
  | n, left + 1 =>
    match body n with
    | .ok v => (.ok v, n + 1)
    | .error e =>
      if should_retry_error e ∧ left > 0 then retryCall body (n + 1) left
      else (.error e, n + 1)

/-- `classify_text` as observed from outside: the decorated body run under
`stop_after_attempt(3)`, where `outcomes n` is what the `acompletion` call
does on attempt `n`. -/
def classify_text (outcomes : Nat → CallOutcome) :
    Except PyExc (Option Resp) × Nat :=
  retryCall (fun n => classifyTextAttempt (outcomes n)) 0 3

/-! ## Trace model of the per-call semaphore in `classify_text`

The body executes, in order:
`asyncio.Semaphore(get_concurrency_limit())` (a FRESH semaphore per call,
sized by an environment value read at call time), acquire (entering the
`async with`), the `acompletion` network call, release (leaving the
`async with`), and only then the parse.  Several concurrent `classify_text`
calls are modelled as tasks, each owning its own semaphore counter, with an
interleaving step relation. -/

/-- Model of `classifier.get_concurrency_limit`:
`int(os.getenv("CONCURRENCY_LIMIT", 1))`. -/
def get_concurrency_limit (env : Option Int) : Int := env.getD 1

/-- Progress of one `classify_text` call. -/
inductive Phase where
  | ready : Phase
  | semMade : Phase
  | inFlight : Phase
  | released : Phase
  | parsed : Phase
deriving DecidableEq

/-- One in-progress `classify_text` call: its phase and the number of free
permits of the semaphore object IT constructed (0 before construction). -/
structure TaskCall where
  phase : Phase
  ownSem : Nat
deriving DecidableEq

/-- The four atomic steps of one call, named after the source lines. -/
inductive CStep where
  | mkSem : CStep
  | acquireSlot : CStep
  | finishCall : CStep
  | parseResult : CStep
deriving DecidableEq

/-- Interleaving semantics: apply one step of task `i`.  `env` is the
`CONCURRENCY_LIMIT` environment value; the semaphore each call constructs
is its own, so acquisition consults only that call's own counter. -/
def applyStep (env : Option Int) (tasks : List TaskCall) (i : Nat)
    (st : CStep) : Option (List TaskCall) :=
  match tasks.get? i, st with
  | some t, .mkSem =>
    if t.phase = .ready then
      some (tasks.set i { phase := .semMade,
                          ownSem := (get_concurrency_limit env).toNat })
    else none
  | some t, .acquireSlot =>
    if t.phase = .semMade ∧ 0 < t.ownSem then
      some (tasks.set i { phase := .inFlight, ownSem := t.ownSem - 1 })
    else none
  | some t, .finishCall =>
    if t.phase = .inFlight then
      some (tasks.set i { phase := .released, ownSem := t.ownSem + 1 })
    else none
  | some t, .parseResult =>
    if t.phase = .released then
      some (tasks.set i { phase := .parsed, ownSem := t.ownSem })
    else none
  | none, _ => none

/-- Run a list of interleaved steps. -/
def runSteps (env : Option Int) : List (Nat × CStep) → List TaskCall →
    Option (List TaskCall)
  | [], tasks => some tasks
  | (i, st) :: rest, tasks =>
    match applyStep env tasks i st with
    | none => none
    | some tasks2 => runSteps env rest tasks2

/-- Number of calls currently inside the `acompletion` network call. -/
def inFlightCount (tasks : List TaskCall) : Nat :=
  (tasks.filter (fun t => t.phase = .inFlight)).length

/-! ## Small observation helpers used by the statements -/

/-- Whether `needle` occurs as a contiguous substring of the second list. -/
def isSubstring (needle : List Char) : List Char → Bool
  | [] => needle.isEmpty
  | c :: rest => needle.isPrefixOf (c :: rest) || isSubstring needle rest

/-- Number of persisted `ClassificationResponse` rows for a given record id. -/
def respCount (responses : List (Nat × Resp)) (input_id : Nat) : Nat :=
  (responses.filter (fun p => p.1 = input_id)).length

/-- The bytes-valued fields of a record, in field-iteration order. -/
def bytesFieldsOf (fields : List (String × PyVal)) : List (String × List Nat) :=
  fields.filterMap (fun f =>
    match f.2 with
    | .vbytes data => some (f.1, data)
    | _ => none)

/-! # Helper lemmas (shared across claims) -/

theorem alistGet_append_self {κ α : Type} [DecidableEq κ]
    (l : List (κ × α)) (k : κ) (v : α) (h : alistGet l k = none) :
    alistGet (l ++ [(k, v)]) k = some v := by
  induction l with
  | nil => simp [alistGet]
  | cons p rest ih =>
    simp only [alistGet, List.find?] at h ⊢
    by_cases hp : p.1 = k
    · simp [hp] at h
    · simp only [List.cons_append, hp, decide_eq_false, Bool.false_eq_true] at h ⊢
      exact ih h

theorem alistGet_append_ne {κ α : Type} [DecidableEq κ]
    (l : List (κ × α)) (k j : κ) (v : α) (h : j ≠ k) :
    alistGet (l ++ [(k, v)]) j = alistGet l j := by
  induction l with
  | nil => simp [alistGet, List.find?, Ne.symm h]
  | cons p rest ih =>
    simp only [alistGet, List.find?, List.cons_append] at ih ⊢
    by_cases hp : p.1 = j
    · simp [hp]
    · simp only [hp, decide_eq_false, Bool.false_eq_true]
      exact ih

theorem respCount_append_self (l : List (Nat × Resp)) (k : Nat) (v : Resp) :
    respCount (l ++ [(k, v)]) k = respCount l k + 1 := by
  simp [respCount]

theorem respCount_append_ne (l : List (Nat × Resp)) (k j : Nat) (v : Resp)
    (h : j ≠ k) : respCount (l ++ [(k, v)]) j = respCount l j := by
  simp [respCount, Ne.symm h]

theorem alistGet_eq_none_of_respCount_zero (l : List (Nat × Resp)) (k : Nat)
    (h : respCount l k = 0) : alistGet l k = none := by
  induction l with
  | nil => rfl
  | cons p rest ih =>
    simp only [respCount, List.filter] at h
    by_cases hp : p.1 = k
    · simp [hp] at h
    · simp only [hp, decide_eq_false, Bool.false_eq_true] at h
      simp only [alistGet, List.find?, hp, decide_eq_false, Bool.false_eq_true]
      exact ih h

/-- A run of `process_single_input` whose record is found, whose template
validates and renders, whose classification succeeds, and for whose id no
response exists yet, persists exactly one new response row. -/
theorem process_single_input_success
    (classify : String → Option (List String) → Option Resp)
    (guess : String → Option String) (model : ModelFields)
    (input_id : Nat) (tmpl : String) (db : DB) (inp : InputRec)
    (placeholders : List String) (prompt : String) (r : Resp)
    (h1 : alistGet db.inputs input_id = some inp)
    (h2 : get_placeholders tmpl model = .ok placeholders)
    (h3 : renderPrompt tmpl placeholders inp = some prompt)
    (h4 : classify prompt
        (if (mediaDataOf guess inp.fields).isEmpty then none
         else some (mediaDataOf guess inp.fields)) = some r)
    (h5 : alistGet db.responses input_id = none) :
    process_single_input classify guess model input_id tmpl db =
      .ok { db with responses := db.responses ++ [(input_id, r)] } := by
  simp only [process_single_input, h1, h2, h3, h4, h5]

/-- Any normally-returning run of `process_single_input` either leaves the
state unchanged or appends exactly one response row for its own id, and it
never touches the input rows. -/
theorem process_single_input_ok_cases
    (classify : String → Option (List String) → Option Resp)
    (guess : String → Option String) (model : ModelFields)
    (input_id : Nat) (tmpl : String) (db db2 : DB)
    (h : process_single_input classify guess model input_id tmpl db = .ok db2) :
    db2 = db ∨ ∃ r, alistGet db.responses input_id = none ∧
      db2 = { db with responses := db.responses ++ [(input_id, r)] } := by
  unfold process_single_input at h
  cases hin : alistGet db.inputs input_id with
  | none => simp only [hin] at h; exact absurd h (by simp)
  | some inp =>
    simp only [hin] at h
    cases hpl : get_placeholders tmpl model with
    | error c => simp only [hpl] at h; exact absurd h (by simp)
    | ok pl =>
      simp only [hpl] at h
      cases hrp : renderPrompt tmpl pl inp with
      | none => simp only [hrp] at h; exact absurd h (by simp)
      | some prompt =>
        simp only [hrp] at h
        cases hcl : classify prompt
            (if (mediaDataOf guess inp.fields).isEmpty then none
             else some (mediaDataOf guess inp.fields)) with
        | none =>
          simp only [hcl] at h
          exact Or.inl (Except.ok.inj h).symm
        | some r =>
          simp only [hcl] at h
          cases hrs : alistGet db.responses input_id with
          | some r0 =>
            simp only [hrs] at h
            exact Or.inl (Except.ok.inj h).symm
          | none =>
            simp only [hrs] at h
            exact Or.inr ⟨r, rfl, (Except.ok.inj h).symm⟩

/-- `processAllStep` (one iteration of the batch loop, with its
`try/except`) either keeps the state or appends one row for its id. -/
theorem processAllStep_cases
    (classify : String → Option (List String) → Option Resp)
    (guess : String → Option String) (model : ModelFields)
    (tmpl : String) (db : DB) (input_id : Nat) :
    processAllStep classify guess model tmpl db input_id = db ∨
      ∃ r, alistGet db.responses input_id = none ∧
        processAllStep classify guess model tmpl db input_id =
          { db with responses := db.responses ++ [(input_id, r)] } := by
  unfold processAllStep
  cases h : process_single_input classify guess model input_id tmpl db with
  | error e => exact Or.inl rfl
  | ok db2 =>
    rcases process_single_input_ok_cases _ _ _ _ _ _ _ h with h2 | ⟨r, hn, h2⟩
    · exact Or.inl h2
    · exact Or.inr ⟨r, hn, h2⟩

/-! # Claim theorems -/

/-- **C1** (invariants): at most one ClassificationResult is ever persisted
per record id.  From a state with no response for `input_id`, a first
successful classification `r1` persists exactly one row; invoking
`process_single_input` again on the resulting state, with a successful
classification `r2` in hand, leaves the existing row unchanged and inserts
nothing, so the persisted fields are those of the first classification. -/
theorem c1_at_most_once_persist
    (classify1 classify2 : String → Option (List String) → Option Resp)
    (guess : String → Option String) (model : ModelFields)
    (input_id : Nat) (tmpl : String) (db : DB) (inp : InputRec)
    (placeholders : List String) (prompt : String) (r1 r2 : Resp)
    (h1 : alistGet db.inputs input_id = some inp)
    (h2 : get_placeholders tmpl model = .ok placeholders)
    (h3 : renderPrompt tmpl placeholders inp = some prompt)
    (h4 : alistGet db.responses input_id = none)
    (hc1 : ∀ p m, classify1 p m = some r1)
    (hc2 : ∀ p m, classify2 p m = some r2) :
    process_single_input classify1 guess model input_id tmpl db =
      .ok { db with responses := db.responses ++ [(input_id, r1)] } ∧
    alistGet (db.responses ++ [(input_id, r1)]) input_id = some r1 ∧
    process_single_input classify2 guess model input_id tmpl
        { db with responses := db.responses ++ [(input_id, r1)] } =
      .ok { db with responses := db.responses ++ [(input_id, r1)] } := by
  have hresp : alistGet (db.responses ++ [(input_id, r1)]) input_id = some r1 :=
    alistGet_append_self _ _ _ h4
  refine ⟨process_single_input_success _ _ _ _ _ _ _ _ _ _ h1 h2 h3 (hc1 _ _) h4,
    hresp, ?_⟩
  simp [process_single_input, h1, h2, h3, hc2, hresp]

/-- Witness for C1: a concrete one-record state, classified twice with
different successful results; the second run changes nothing. -/
theorem c1_witness :
    process_single_input (fun _ _ => some [("sentiment", PyVal.vint 4)])
        (fun _ => none) [("title", true)] 1 "t \x7btitle\x7d"
        ⟨[(1, ⟨[("title", PyVal.vstr "t")]⟩)], []⟩ =
      .ok ⟨[(1, ⟨[("title", PyVal.vstr "t")]⟩)],
           [(1, [("sentiment", PyVal.vint 4)])]⟩ ∧
    alistGet ([(1, [("sentiment", PyVal.vint 4)])] : List (Nat × Resp)) 1 =
      some [("sentiment", PyVal.vint 4)] ∧
    process_single_input (fun _ _ => some [("sentiment", PyVal.vint 9)])
        (fun _ => none) [("title", true)] 1 "t \x7btitle\x7d"
        ⟨[(1, ⟨[("title", PyVal.vstr "t")]⟩)],
         [(1, [("sentiment", PyVal.vint 4)])]⟩ =
      .ok ⟨[(1, ⟨[("title", PyVal.vstr "t")]⟩)],
           [(1, [("sentiment", PyVal.vint 4)])]⟩ :=
  c1_at_most_once_persist _ _ _ _ 1 _ _ _ _ _ _ _
    rfl rfl rfl rfl (fun _ _ => rfl) (fun _ _ => rfl)

/-- **C2** (error handling): the claim says `classify_text` retries on
rate-limit errors up to 3 attempts.  In the code the blanket
`except Exception` inside `classify_text` catches `RateLimitError` itself
and returns `None`, so the tenacity decorator never observes an exception:
with the provider rate-limiting twice and then succeeding, the call returns
`None` after a single attempt instead of the successful result after three.
The non-rate-limit half of the claim does hold (failure after 1 attempt). -/
theorem c2_rate_limit_swallowed :
    classify_text (fun n =>
        if n < 2 then .rateLimit else .success [("sentiment", PyVal.vint 4)]) =
      (.ok none, 1) ∧
    classify_text (fun _ => .otherErr) = (.ok none, 1) ∧
    classify_text (fun _ => .success [("sentiment", PyVal.vint 4)]) =
      (.ok (some [("sentiment", PyVal.vint 4)]), 1) :=
  ⟨rfl, rfl, rfl⟩

/-- **C3 counterexample**: with a template whose placeholder names a field
absent from the model, the `TemplateError` is raised inside
`process_single_input` when the record is processed — not eagerly — and the
batch entry point `classify_inputs` returns normally with the state
unchanged: the error does not escape to the caller, refuting the claim. -/
theorem c3_counterexample :
    process_single_input (fun _ _ => some [("sentiment", PyVal.vint 4)])
        (fun _ => none) [("title", true)] 1 "x \x7bmissing\x7d"
        ⟨[(1, ⟨[("title", PyVal.vstr "t")]⟩)], []⟩ =
      .error (.templateErr "missing") ∧
    classify_inputs (fun _ _ => some [("sentiment", PyVal.vint 4)])
        (fun _ => none) [("title", true)] [1] "x \x7bmissing\x7d"
        ⟨[(1, ⟨[("title", PyVal.vstr "t")]⟩)], []⟩ =
      .ok ⟨[(1, ⟨[("title", PyVal.vstr "t")]⟩)], []⟩ :=
  ⟨rfl, rfl⟩

/-- **C3 amended** (error handling): a `TemplateError` is raised per record
inside `process_single_input` (the template is validated when each record
is processed, not once before the batch), and `classify_inputs` absorbs
every per-record exception: the batch entry point always returns normally,
so no error — `TemplateError` included — ever escapes to its caller. -/
theorem c3_template_error_absorbed :
    (∀ (classify : String → Option (List String) → Option Resp)
        (guess : String → Option String) (model : ModelFields)
        (input_id : Nat) (tmpl : String) (db : DB) (col : String)
        (inp : InputRec),
        alistGet db.inputs input_id = some inp →
        get_placeholders tmpl model = .error col →
        process_single_input classify guess model input_id tmpl db =
          .error (.templateErr col)) ∧
    (∀ (classify : String → Option (List String) → Option Resp)
        (guess : String → Option String) (model : ModelFields)
        (ids : List Nat) (tmpl : String) (db : DB),
        ∃ db2, classify_inputs classify guess model ids tmpl db = .ok db2) := by
  constructor
  · intro classify guess model input_id tmpl db col inp h1 h2
    simp [process_single_input, h1, h2]
  · intro classify guess model ids tmpl db
    exact ⟨_, rfl⟩

/-- Witness for the amended C3 at a concrete state and template. -/
theorem c3_witness :
    process_single_input (fun _ _ => some [("reason", PyVal.vstr "r")])
        (fun _ => none) [("body", true)] 7 "y \x7bnope\x7d"
        ⟨[(7, ⟨[("body", PyVal.vstr "b")]⟩)], []⟩ =
      .error (.templateErr "nope") ∧
    ∃ db2, classify_inputs (fun _ _ => some [("reason", PyVal.vstr "r")])
        (fun _ => none) [("body", true)] [7] "y \x7bnope\x7d"
        ⟨[(7, ⟨[("body", PyVal.vstr "b")]⟩)], []⟩ = .ok db2 :=
  ⟨c3_template_error_absorbed.1 _ _ _ 7 _ _ _ ⟨[("body", PyVal.vstr "b")]⟩ rfl rfl,
   c3_template_error_absorbed.2 _ _ _ _ _ _⟩

/-- **C6** (algebraic): response parsing is fence-insensitive — the fenced
form, the fenced form with whitespace after the backticks, an upper-case
fence label, and the bare JSON string all parse to the identical object. -/
theorem c6_fence_insensitive :
    get_json "```json\n\x7b\"a\":1\x7d\n```" =
      get_json "``` json\n\x7b\"a\":1\x7d\n```" ∧
    get_json "``` json\n\x7b\"a\":1\x7d\n```" =
      get_json "```JSON\n\x7b\"a\":1\x7d\n```" ∧
    get_json "```JSON\n\x7b\"a\":1\x7d\n```" = get_json "\x7b\"a\":1\x7d" ∧
    get_json "\x7b\"a\":1\x7d" = some (Json.obj [("a", Json.num 1)]) :=
  ⟨rfl, rfl, rfl, rfl⟩

/-- **C4 counterexample**: the claimed process-wide bound on in-flight LLM
calls fails.  Each `classify_text` call constructs its OWN
`asyncio.Semaphore`, so with the default limit 1 two interleaved calls can
both be inside the network call at once: a concrete 4-step interleaving
reaches 2 in-flight calls, refuting `inFlightCount ≤ limit` for all
reachable states. -/
theorem c4_counterexample :
    ¬ (∀ (tr : List (Nat × CStep)) (final : List TaskCall),
        runSteps none tr [⟨.ready, 0⟩, ⟨.ready, 0⟩] = some final →
        inFlightCount final ≤ (get_concurrency_limit none).toNat) := by
  intro h
  exact absurd
    (h [(0, .mkSem), (0, .acquireSlot), (1, .mkSem), (1, .acquireSlot)]
      [⟨.inFlight, 0⟩, ⟨.inFlight, 0⟩] rfl)
    (by decide)

/-- **C4 amended** (concurrency): each `classify_text` invocation constructs
its own semaphore, sized by the concurrency limit read from the environment
at that moment (default 1 when unset); because the semaphore is per-call
rather than a single shared instance, in-flight calls are NOT bounded
process-wide (with limit 1, a reachable state has 2 calls in flight); within
one call the slot is released as soon as the network call returns, and
parsing happens only from the released state. -/
theorem c4_per_call_semaphore :
    (∀ (env : Option Int) (tasks : List TaskCall) (i : Nat)
        (tasks2 : List TaskCall),
        applyStep env tasks i .mkSem = some tasks2 →
        tasks2 = tasks.set i
          { phase := .semMade, ownSem := (get_concurrency_limit env).toNat }) ∧
    (∀ (env : Option Int) (tasks : List TaskCall) (i : Nat)
        (tasks2 : List TaskCall),
        applyStep env tasks i .parseResult = some tasks2 →
        ∃ t, tasks.get? i = some t ∧ t.phase = .released ∧
          tasks2 = tasks.set i { phase := .parsed, ownSem := t.ownSem }) ∧
    get_concurrency_limit none = 1 ∧
    (runSteps none [(0, .mkSem), (0, .acquireSlot), (1, .mkSem), (1, .acquireSlot)]
        [⟨.ready, 0⟩, ⟨.ready, 0⟩] = some [⟨.inFlight, 0⟩, ⟨.inFlight, 0⟩] ∧
      inFlightCount [⟨.inFlight, 0⟩, ⟨.inFlight, 0⟩] = 2) := by
  refine ⟨?_, ?_, rfl, rfl, rfl⟩
  · intro env tasks i tasks2 h
    unfold applyStep at h
    cases hg : tasks.get? i with
    | none => simp only [hg] at h; exact absurd h (by simp)
    | some t =>
      simp only [hg] at h
      by_cases hp : t.phase = .ready
      · rw [if_pos hp] at h
        exact (Option.some.inj h).symm
      · rw [if_neg hp] at h
        exact absurd h (by simp)
  · intro env tasks i tasks2 h
    unfold applyStep at h
    cases hg : tasks.get? i with
    | none => simp only [hg] at h; exact absurd h (by simp)
    | some t =>
      simp only [hg] at h
      by_cases hp : t.phase = .released
      · rw [if_pos hp] at h
        exact ⟨t, rfl, hp, (Option.some.inj h).symm⟩
      · rw [if_neg hp] at h
        exact absurd h (by simp)

/-- Witness for the amended C4: one concrete `mkSem` step installs a fresh
semaphore with 1 permit, and one concrete `parseResult` step moves a
released call to parsed. -/
theorem c4_witness :
    ([⟨Phase.semMade, 1⟩] : List TaskCall) =
      ([⟨Phase.ready, 0⟩] : List TaskCall).set 0
        { phase := .semMade, ownSem := (get_concurrency_limit none).toNat } ∧
    ([⟨Phase.parsed, 1⟩] : List TaskCall) =
      ([⟨Phase.released, 1⟩] : List TaskCall).set 0
        { phase := .parsed, ownSem := 1 } := by
  constructor
  · exact c4_per_call_semaphore.1 none [⟨.ready, 0⟩] 0 [⟨.semMade, 1⟩] rfl
  · obtain ⟨t, ht, -, he⟩ :=
      c4_per_call_semaphore.2.1 none [⟨.released, 1⟩] 0 [⟨.parsed, 1⟩] rfl
    have : t = ⟨Phase.released, 1⟩ := Option.some.inj ht.symm
    rw [this] at he
    exact he

/-- One iteration of the batch loop never touches the input rows. -/
theorem processAllStep_inputs
    (classify : String → Option (List String) → Option Resp)
    (guess : String → Option String) (model : ModelFields)
    (tmpl : String) (db : DB) (input_id : Nat) :
    (processAllStep classify guess model tmpl db input_id).inputs = db.inputs := by
  rcases processAllStep_cases classify guess model tmpl db input_id with
    h | ⟨r, -, h⟩ <;> rw [h]

/-- One iteration of the batch loop leaves the response count of every
other record id unchanged. -/
theorem respCount_processAllStep_ne
    (classify : String → Option (List String) → Option Resp)
    (guess : String → Option String) (model : ModelFields)
    (tmpl : String) (db : DB) (input_id j : Nat) (h : j ≠ input_id) :
    respCount (processAllStep classify guess model tmpl db input_id).responses j =
      respCount db.responses j := by
  rcases processAllStep_cases classify guess model tmpl db input_id with
    h2 | ⟨r, -, h2⟩ <;> rw [h2]
  exact respCount_append_ne _ _ _ _ h

/-- Records not in the processed id list keep their response count across
the whole batch loop. -/
theorem respCount_foldl_not_mem
    (classify : String → Option (List String) → Option Resp)
    (guess : String → Option String) (model : ModelFields) (tmpl : String) :
    ∀ (ids : List Nat) (db : DB) (j : Nat), j ∉ ids →
      respCount ((ids.foldl (processAllStep classify guess model tmpl) db).responses) j =
        respCount db.responses j := by
  intro ids
  induction ids with
  | nil => intro db j _; rfl
  | cons i rest ih =>
    intro db j h
    rw [List.mem_cons] at h
    push_neg at h
    simp only [List.foldl_cons]
    rw [ih _ j h.2]
    exact respCount_processAllStep_ne classify guess model tmpl db i j h.1

/-- Main batch-loop invariant: with a valid template, an always-successful
classifier, and one absent record id, every other listed record gains
exactly one response row and the absent record's count is unchanged. -/
theorem foldl_counts
    (classify : String → Option (List String) → Option Resp)
    (guess : String → Option String) (model : ModelFields)
    (tmpl : String) (pl : List String)
    (hpl : get_placeholders tmpl model = .ok pl)
    (hclassify : ∀ p m, ∃ r, classify p m = some r) :
    ∀ (ids : List Nat) (db : DB) (badId : Nat),
      alistGet db.inputs badId = none →
      (∀ i, i ∈ ids → i ≠ badId → ∃ inp, alistGet db.inputs i = some inp ∧
        ∃ s, renderPrompt tmpl pl inp = some s) →
      ids.Nodup →
      (∀ i, i ∈ ids → i ≠ badId → respCount db.responses i = 0) →
      (∀ i, i ∈ ids → i ≠ badId →
        respCount ((ids.foldl (processAllStep classify guess model tmpl) db).responses) i = 1) ∧
      respCount ((ids.foldl (processAllStep classify guess model tmpl) db).responses) badId =
        respCount db.responses badId := by
  intro ids
  induction ids with
  | nil =>
    intro db badId _ _ _ _
    exact ⟨fun i hi => absurd hi (List.not_mem_nil i), rfl⟩
  | cons j rest ih =>
    intro db badId hbad hpresent hnodup hclean
    have hnodup2 := List.nodup_cons.mp hnodup
    simp only [List.foldl_cons]
    by_cases hj : j = badId
    · subst hj
      have hstep : processAllStep classify guess model tmpl db j = db := by
        unfold processAllStep process_single_input
        simp only [hbad]
      rw [hstep]
      obtain ⟨h1, h2⟩ := ih db j hbad
        (fun i hi hne => hpresent i (List.mem_cons_of_mem _ hi) hne) hnodup2.2
        (fun i hi hne => hclean i (List.mem_cons_of_mem _ hi) hne)
      refine ⟨?_, h2⟩
      intro i hi hne
      rcases List.mem_cons.mp hi with rfl | hi2
      · exact absurd rfl hne
      · exact h1 i hi2 hne
    · obtain ⟨inp, hin, s, hrp⟩ := hpresent j (List.mem_cons_self _ _) hj
      obtain ⟨r, hcl⟩ := hclassify s
        (if (mediaDataOf guess inp.fields).isEmpty then none
         else some (mediaDataOf guess inp.fields))
      have hzero : respCount db.responses j = 0 :=
        hclean j (List.mem_cons_self _ _) hj
      have hnone : alistGet db.responses j = none :=
        alistGet_eq_none_of_respCount_zero _ _ hzero
      have hstep : processAllStep classify guess model tmpl db j =
          { db with responses := db.responses ++ [(j, r)] } := by
        unfold processAllStep
        rw [process_single_input_success classify guess model j tmpl db inp pl
          s r hin hpl hrp hcl hnone]
      rw [hstep]
      have hclean2 : ∀ i, i ∈ rest → i ≠ badId →
          respCount (db.responses ++ [(j, r)]) i = 0 := by
        intro i hi hne
        have hij : i ≠ j := fun he => hnodup2.1 (he ▸ hi)
        rw [respCount_append_ne db.responses j i r hij]
        exact hclean i (List.mem_cons_of_mem _ hi) hne
      obtain ⟨h1, h2⟩ := ih { db with responses := db.responses ++ [(j, r)] }
        badId hbad
        (fun i hi hne => hpresent i (List.mem_cons_of_mem _ hi) hne)
        hnodup2.2 hclean2
      constructor
      · intro i hi hne
        rcases List.mem_cons.mp hi with rfl | hi2
        · rw [respCount_foldl_not_mem classify guess model tmpl rest
            { db with responses := db.responses ++ [(i, r)] } i hnodup2.1]
          show respCount (db.responses ++ [(i, r)]) i = 1
          rw [respCount_append_self, hzero]
        · exact h1 i hi2 hne
      · rw [h2]
        exact respCount_append_ne db.responses j badId r (fun he => hj he.symm)

/-- **C5** (error handling): per-record failures are isolated.  With a valid
template, an always-successful classifier and a clean initial state, running
the batch over distinct ids where one id has no record: the batch entry
point returns normally, every other id ends with exactly one persisted
response, and the absent id ends with none. -/
theorem c5_partial_failure_isolation
    (classify : String → Option (List String) → Option Resp)
    (guess : String → Option String) (model : ModelFields)
    (ids : List Nat) (tmpl : String) (pl : List String) (db : DB) (badId : Nat)
    (hpl : get_placeholders tmpl model = .ok pl)
    (hclassify : ∀ p m, ∃ r, classify p m = some r)
    (hbad : alistGet db.inputs badId = none)
    (hpresent : ∀ i, i ∈ ids → i ≠ badId → ∃ inp, alistGet db.inputs i = some inp ∧
      ∃ s, renderPrompt tmpl pl inp = some s)
    (hnodup : ids.Nodup)
    (hclean : db.responses = []) :
    classify_inputs classify guess model ids tmpl db =
      .ok (ids.foldl (processAllStep classify guess model tmpl) db) ∧
    (∀ i, i ∈ ids → i ≠ badId →
      respCount ((ids.foldl (processAllStep classify guess model tmpl) db).responses) i = 1) ∧
    respCount ((ids.foldl (processAllStep classify guess model tmpl) db).responses) badId = 0 := by
  obtain ⟨h1, h2⟩ := foldl_counts classify guess model tmpl pl hpl hclassify
    ids db badId hbad hpresent hnodup
    (by intro i _ _; rw [hclean]; rfl)
  refine ⟨rfl, h1, ?_⟩
  rw [h2, hclean]
  rfl

/-- Witness for C5: batch `[1, 2, 3]` where record 2 is absent; records 1
and 3 end with exactly one response each, record 2 with none, and the entry
point returns normally. -/
theorem c5_witness :
    classify_inputs (fun _ _ => some [("sentiment", PyVal.vint 4)])
        (fun _ => none) [("title", true)] [1, 2, 3] "t \x7btitle\x7d"
        ⟨[(1, ⟨[("title", PyVal.vstr "a")]⟩), (3, ⟨[("title", PyVal.vstr "b")]⟩)], []⟩ =
      .ok ([1, 2, 3].foldl
        (processAllStep (fun _ _ => some [("sentiment", PyVal.vint 4)])
          (fun _ => none) [("title", true)] "t \x7btitle\x7d")
        ⟨[(1, ⟨[("title", PyVal.vstr "a")]⟩), (3, ⟨[("title", PyVal.vstr "b")]⟩)], []⟩) ∧
    respCount (([1, 2, 3].foldl
        (processAllStep (fun _ _ => some [("sentiment", PyVal.vint 4)])
          (fun _ => none) [("title", true)] "t \x7btitle\x7d")
        ⟨[(1, ⟨[("title", PyVal.vstr "a")]⟩), (3, ⟨[("title", PyVal.vstr "b")]⟩)], []⟩).responses) 1 = 1 ∧
    respCount (([1, 2, 3].foldl
        (processAllStep (fun _ _ => some [("sentiment", PyVal.vint 4)])
          (fun _ => none) [("title", true)] "t \x7btitle\x7d")
        ⟨[(1, ⟨[("title", PyVal.vstr "a")]⟩), (3, ⟨[("title", PyVal.vstr "b")]⟩)], []⟩).responses) 2 = 0 ∧
    respCount (([1, 2, 3].foldl
        (processAllStep (fun _ _ => some [("sentiment", PyVal.vint 4)])
          (fun _ => none) [("title", true)] "t \x7btitle\x7d")
        ⟨[(1, ⟨[("title", PyVal.vstr "a")]⟩), (3, ⟨[("title", PyVal.vstr "b")]⟩)], []⟩).responses) 3 = 1 := by
  obtain ⟨ha, hb, hc⟩ := c5_partial_failure_isolation
    (fun _ _ => some [("sentiment", PyVal.vint 4)]) (fun _ => none)
    [("title", true)] [1, 2, 3] "t \x7btitle\x7d" ["title"]
    ⟨[(1, ⟨[("title", PyVal.vstr "a")]⟩), (3, ⟨[("title", PyVal.vstr "b")]⟩)], []⟩ 2
    rfl (fun p m => ⟨_, rfl⟩) rfl
    (by
      intro i hi hne
      simp only [List.mem_cons, List.not_mem_nil, or_false] at hi
      rcases hi with rfl | rfl | rfl
      · exact ⟨⟨[("title", PyVal.vstr "a")]⟩, rfl, "t a", rfl⟩
      · exact absurd rfl hne
      · exact ⟨⟨[("title", PyVal.vstr "b")]⟩, rfl, "t b", rfl⟩)
    (by decide) rfl
  exact ⟨ha, hb 1 (by simp) (by decide), hc, hb 3 (by simp) (by decide)⟩

/-- **C7** (functional correctness): `get_gemini_schema` keeps a direct
primitive type, maps an `anyOf`/Optional field to its first non-null inner
type (string if only null), defaults a typeless field to string, excludes
the internal identifier fields from both properties and required, and
otherwise mirrors the schema's required list. -/
theorem c7_gemini_schema_mapping (schema : PySchema) :
    (∀ n t, (n, FieldInfo.typed t) ∈ schema.properties → ¬ n ∈ internalFields →
      (n, t) ∈ (get_gemini_schema schema).properties) ∧
    (∀ n ts t rest, (n, FieldInfo.anyOf ts) ∈ schema.properties →
      ¬ n ∈ internalFields →
      ts.filter (fun u => u ≠ "null") = t :: rest →
      (n, t) ∈ (get_gemini_schema schema).properties) ∧
    (∀ n ts, (n, FieldInfo.anyOf ts) ∈ schema.properties → ¬ n ∈ internalFields →
      ts.filter (fun u => u ≠ "null") = [] →
      (n, "string") ∈ (get_gemini_schema schema).properties) ∧
    (∀ n, (n, FieldInfo.other) ∈ schema.properties → ¬ n ∈ internalFields →
      (n, "string") ∈ (get_gemini_schema schema).properties) ∧
    (∀ n p, n ∈ internalFields →
      (n, p) ∉ (get_gemini_schema schema).properties ∧
      n ∉ (get_gemini_schema schema).required) ∧
    (get_gemini_schema schema).required =
      schema.required.filter (fun f => ¬ internalFields.contains f) := by
  refine ⟨?_, ?_, ?_, ?_, ?_, rfl⟩
  · intro n t hmem hint
    exact List.mem_map.mpr ⟨(n, FieldInfo.typed t),
      List.mem_filter.mpr ⟨hmem, by simpa using hint⟩, rfl⟩
  · intro n ts t rest hmem hint hf
    refine List.mem_map.mpr ⟨(n, FieldInfo.anyOf ts),
      List.mem_filter.mpr ⟨hmem, by simpa using hint⟩, ?_⟩
    show (n, get_type_info (FieldInfo.anyOf ts)) = (n, t)
    simp only [get_type_info]
    rw [hf]
  · intro n ts hmem hint hf
    refine List.mem_map.mpr ⟨(n, FieldInfo.anyOf ts),
      List.mem_filter.mpr ⟨hmem, by simpa using hint⟩, ?_⟩
    show (n, get_type_info (FieldInfo.anyOf ts)) = (n, "string")
    simp only [get_type_info]
    rw [hf]
  · intro n hmem hint
    exact List.mem_map.mpr ⟨(n, FieldInfo.other),
      List.mem_filter.mpr ⟨hmem, by simpa using hint⟩, rfl⟩
  · intro n p hint
    constructor
    · intro hmem
      obtain ⟨a, ha, he⟩ := List.mem_map.mp hmem
      obtain ⟨-, hpred⟩ := List.mem_filter.mp ha
      have han : a.1 = n := congrArg Prod.fst he
      rw [han] at hpred
      simp at hpred
      exact hpred hint
    · intro hmem
      obtain ⟨-, hpred⟩ := List.mem_filter.mp hmem
      simp at hpred
      exact hpred hint

/-- Witness for C7 on a concrete schema with one field of each shape plus
an internal `id` field. -/
theorem c7_witness :
    ("score", "integer") ∈ (get_gemini_schema
      ⟨[("score", .typed "integer"), ("note", .anyOf ["string", "null"]),
        ("flag", .anyOf ["null"]), ("blob", .other), ("id", .typed "integer")],
       ["score", "id"]⟩).properties ∧
    ("note", "string") ∈ (get_gemini_schema
      ⟨[("score", .typed "integer"), ("note", .anyOf ["string", "null"]),
        ("flag", .anyOf ["null"]), ("blob", .other), ("id", .typed "integer")],
       ["score", "id"]⟩).properties ∧
    ("flag", "string") ∈ (get_gemini_schema
      ⟨[("score", .typed "integer"), ("note", .anyOf ["string", "null"]),
        ("flag", .anyOf ["null"]), ("blob", .other), ("id", .typed "integer")],
       ["score", "id"]⟩).properties ∧
    ("blob", "string") ∈ (get_gemini_schema
      ⟨[("score", .typed "integer"), ("note", .anyOf ["string", "null"]),
        ("flag", .anyOf ["null"]), ("blob", .other), ("id", .typed "integer")],
       ["score", "id"]⟩).properties ∧
    ("id", "integer") ∉ (get_gemini_schema
      ⟨[("score", .typed "integer"), ("note", .anyOf ["string", "null"]),
        ("flag", .anyOf ["null"]), ("blob", .other), ("id", .typed "integer")],
       ["score", "id"]⟩).properties ∧
    "id" ∉ (get_gemini_schema
      ⟨[("score", .typed "integer"), ("note", .anyOf ["string", "null"]),
        ("flag", .anyOf ["null"]), ("blob", .other), ("id", .typed "integer")],
       ["score", "id"]⟩).required ∧
    (get_gemini_schema
      ⟨[("score", .typed "integer"), ("note", .anyOf ["string", "null"]),
        ("flag", .anyOf ["null"]), ("blob", .other), ("id", .typed "integer")],
       ["score", "id"]⟩).required = ["score"] := by
  obtain ⟨h1, h2, h3, h4, h5, h6⟩ := c7_gemini_schema_mapping
    ⟨[("score", .typed "integer"), ("note", .anyOf ["string", "null"]),
      ("flag", .anyOf ["null"]), ("blob", .other), ("id", .typed "integer")],
     ["score", "id"]⟩
  refine ⟨h1 "score" "integer" (by simp) (by decide),
    h2 "note" ["string", "null"] "string" [] (by simp) (by decide) (by decide),
    h3 "flag" ["null"] (by simp) (by decide) (by decide),
    h4 "blob" (by simp) (by decide),
    (h5 "id" "integer" (by decide)).1,
    (h5 "id" "integer" (by decide)).2,
    h6.trans (by decide)⟩

/-- **C8** (error handling): template validation.  If some placeholder in
the template names a field absent from the model, `get_placeholders` fails
with a `TemplateError` naming such a field; if all placeholders are valid
but some required non-internal field has no placeholder, it fails with a
`TemplateError` naming such a field; otherwise it returns the placeholder
sequence found in the template. -/
theorem c8_template_validation (tmpl : String) (model : ModelFields) :
    ((∃ c, c ∈ findPlaceholders tmpl.data ∧ c ∉ model.map (fun f => f.1)) →
      ∃ c, get_placeholders tmpl model = .error c ∧
        c ∈ findPlaceholders tmpl.data ∧ c ∉ model.map (fun f => f.1)) ∧
    ((∀ c ∈ findPlaceholders tmpl.data, c ∈ model.map (fun f => f.1)) →
      (∃ f, f ∈ (model.filter
          (fun f => f.2 ∧ ¬ internalFields.contains f.1)).map (fun f => f.1) ∧
        f ∉ findPlaceholders tmpl.data) →
      ∃ f, get_placeholders tmpl model = .error f ∧
        f ∈ (model.filter
          (fun f => f.2 ∧ ¬ internalFields.contains f.1)).map (fun f => f.1) ∧
        f ∉ findPlaceholders tmpl.data) ∧
    ((∀ c ∈ findPlaceholders tmpl.data, c ∈ model.map (fun f => f.1)) →
      (∀ f ∈ (model.filter
          (fun f => f.2 ∧ ¬ internalFields.contains f.1)).map (fun f => f.1),
        f ∈ findPlaceholders tmpl.data) →
      get_placeholders tmpl model = .ok (findPlaceholders tmpl.data)) := by
  refine ⟨?_, ?_, ?_⟩
  · rintro ⟨c0, hc0, hn0⟩
    have hmemf : c0 ∈ (findPlaceholders tmpl.data).filter
        (fun col => ¬ (model.map (fun f => f.1)).contains col) :=
      List.mem_filter.mpr ⟨hc0, by simpa using hn0⟩
    cases hf : (findPlaceholders tmpl.data).filter
        (fun col => ¬ (model.map (fun f => f.1)).contains col) with
    | nil => rw [hf] at hmemf; exact absurd hmemf (List.not_mem_nil c0)
    | cons b rest =>
      have hb : b ∈ (findPlaceholders tmpl.data).filter
          (fun col => ¬ (model.map (fun f => f.1)).contains col) := by
        rw [hf]; exact List.mem_cons_self _ _
      obtain ⟨hbmem, hbpred⟩ := List.mem_filter.mp hb
      refine ⟨b, ?_, hbmem, by simpa using hbpred⟩
      simp only [get_placeholders, hf]
  · intro hall
    rintro ⟨f0, hf0, hn0⟩
    have hempty : (findPlaceholders tmpl.data).filter
        (fun col => ¬ (model.map (fun f => f.1)).contains col) = [] := by
      rw [List.filter_eq_nil_iff]
      intro c hc
      have h2 := hall c hc
      simp at h2 ⊢
      tauto
    have hmemf : f0 ∈ ((model.filter
        (fun f => f.2 ∧ ¬ internalFields.contains f.1)).map (fun f => f.1)).filter
        (fun f => ¬ (findPlaceholders tmpl.data).contains f) :=
      List.mem_filter.mpr ⟨hf0, by simpa using hn0⟩
    cases hf : ((model.filter
        (fun f => f.2 ∧ ¬ internalFields.contains f.1)).map (fun f => f.1)).filter
        (fun f => ¬ (findPlaceholders tmpl.data).contains f) with
    | nil => rw [hf] at hmemf; exact absurd hmemf (List.not_mem_nil f0)
    | cons b rest =>
      have hb : b ∈ ((model.filter
          (fun f => f.2 ∧ ¬ internalFields.contains f.1)).map (fun f => f.1)).filter
          (fun f => ¬ (findPlaceholders tmpl.data).contains f) := by
        rw [hf]; exact List.mem_cons_self _ _
      obtain ⟨hbmem, hbpred⟩ := List.mem_filter.mp hb
      refine ⟨b, ?_, hbmem, by simpa using hbpred⟩
      simp only [get_placeholders, hempty, hf]
  · intro hall hreq
    have hempty1 : (findPlaceholders tmpl.data).filter
        (fun col => ¬ (model.map (fun f => f.1)).contains col) = [] := by
      rw [List.filter_eq_nil_iff]
      intro c hc
      have h2 := hall c hc
      simp at h2 ⊢
      tauto
    have hempty2 : ((model.filter
        (fun f => f.2 ∧ ¬ internalFields.contains f.1)).map (fun f => f.1)).filter
        (fun f => ¬ (findPlaceholders tmpl.data).contains f) = [] := by
      rw [List.filter_eq_nil_iff]
      intro f hf
      have h2 := hreq f hf
      simp at h2 ⊢
      tauto
    simp only [get_placeholders, hempty1, hempty2]

/-- Witness for C8: an unknown placeholder fails naming it, a missing
required field fails naming it, a missing non-required field is fine. -/
theorem c8_witness :
    get_placeholders "x \x7bbad\x7d" [("title", true)] = .error "bad" ∧
    get_placeholders "x" [("title", true)] = .error "title" ∧
    get_placeholders "t \x7btitle\x7d" [("title", true), ("note", false)] =
      .ok ["title"] := by
  refine ⟨?_, ?_, ?_⟩
  · obtain ⟨c, hc, hcm, -⟩ := (c8_template_validation "x \x7bbad\x7d" [("title", true)]).1
      (by refine ⟨"bad", ?_, ?_⟩ <;> decide)
    have : c = "bad" := by
      have := hcm
      simp only [show findPlaceholders "x \x7bbad\x7d".data = ["bad"] from rfl,
        List.mem_singleton] at this
      exact this
    rw [this] at hc
    exact hc
  · obtain ⟨f, hf, hfm, -⟩ := (c8_template_validation "x" [("title", true)]).2.1
      (by
        intro c hc
        rw [show findPlaceholders "x".data = [] from rfl] at hc
        exact absurd hc (List.not_mem_nil c))
      (by refine ⟨"title", ?_, ?_⟩ <;> decide)
    have : f = "title" := by
      have := hfm
      simp only [show ((([("title", true)] : ModelFields).filter
        (fun f => f.2 ∧ ¬ internalFields.contains f.1)).map (fun f => f.1)) =
          ["title"] from rfl, List.mem_singleton] at this
      exact this
    rw [this] at hf
    exact hf
  · exact (c8_template_validation "t \x7btitle\x7d"
      [("title", true), ("note", false)]).2.2
      (by intro c hc; fin_cases hc; decide)
      (by intro f hf; fin_cases hf; decide)

theorem alistGet_map_self (req : List String) (vals : String → Json) (k : String)
    (h : k ∈ req) :
    alistGet (req.map (fun n => (n, vals n))) k = some (vals k) := by
  induction req with
  | nil => exact absurd h (List.not_mem_nil k)
  | cons n rest ih =>
    by_cases hn : n = k
    · subst hn
      simp [alistGet, List.find?]
    · rcases List.mem_cons.mp h with rfl | h2
      · exact absurd rfl hn
      · simp only [List.map_cons, alistGet, List.find?, hn, decide_eq_false,
          Bool.false_eq_true]
        exact ih h2

theorem alistGet_map_not_mem (req : List String) (vals : String → Json) (k : String)
    (h : k ∉ req) :
    alistGet (req.map (fun n => (n, vals n))) k = none := by
  induction req with
  | nil => rfl
  | cons n rest ih =>
    rw [List.mem_cons] at h
    push_neg at h
    simp only [List.map_cons, alistGet, List.find?, Ne.symm h.1, decide_eq_false,
      Bool.false_eq_true]
    exact ih h.2

/-- The provider descriptor's required list for a schema of caller fields
with non-internal names is exactly the names of the required fields. -/
theorem gemini_required_of_fields (fields : List FieldSpec)
    (hni : ∀ f ∈ fields, ¬ internalFields.contains f.name) :
    (get_gemini_schema (json_schema_of fields)).required =
      (fields.filter (fun f => f.required)).map (fun f => f.name) := by
  show ((fields.filter (fun f => f.required)).map (fun f => f.name)).filter
      (fun f => ¬ internalFields.contains f) =
    (fields.filter (fun f => f.required)).map (fun f => f.name)
  rw [List.filter_eq_self]
  intro a ha
  obtain ⟨g, hg, he⟩ := List.mem_map.mp ha
  have hgf : g ∈ fields := (List.mem_filter.mp hg).1
  have h2 := hni g hgf
  rw [← he]
  exact decide_eq_true h2

/-- Validating against a document whose members contain exactly the right
values for required fields and nothing for optional ones recovers the
expected typed record. -/
theorem model_validate_members (vals : String → Json) :
    ∀ (fields : List FieldSpec) (members : List (String × Json)),
    (∀ f ∈ fields, (f.required →
        alistGet members f.name = some (vals f.name) ∧
        (coerceField f.ty (vals f.name)).isSome) ∧
      (¬ f.required → alistGet members f.name = none)) →
    mapOpt (fun f =>
      match alistGet members f.name with
      | some v => (coerceField f.ty v).map (fun pv => (f.name, some pv))
      | none => if f.required then none else some (f.name, none)) fields =
    some (fields.map (fun f =>
      (f.name, if f.required then coerceField f.ty (vals f.name) else none))) := by
  intro fields
  induction fields with
  | nil => intro members _; rfl
  | cons f rest ih =>
    intro members h
    have hf := h f (List.mem_cons_self _ _)
    have hrest := ih members (fun g hg => h g (List.mem_cons_of_mem _ hg))
    simp only [mapOpt, List.map_cons]
    by_cases hr : f.required
    · obtain ⟨hget, hsome⟩ := hf.1 hr
      obtain ⟨pv, hpv⟩ := Option.isSome_iff_exists.mp hsome
      rw [hget]
      simp only [hpv]
      rw [hrest]
      simp [hr, hpv]
    · rw [hf.2 hr]
      rw [if_neg hr]
      rw [hrest]
      simp [hr]

/-- **C9** (algebraic): schema round-trip.  For any result schema built from
string/integer/boolean fields, required or optional, with distinct
non-internal names: the provider descriptor's required list is exactly the
required field names, and validating a JSON document that contains exactly
those required fields (with values of the declared types) recovers a record
whose required fields carry the documented values and whose omitted optional
fields are `None`, without error. -/
theorem c9_round_trip (fields : List FieldSpec) (vals : String → Json)
    (hnd : (fields.map (fun f => f.name)).Nodup)
    (hni : ∀ f ∈ fields, ¬ internalFields.contains f.name)
    (hvals : ∀ f ∈ fields, f.required → (coerceField f.ty (vals f.name)).isSome) :
    (get_gemini_schema (json_schema_of fields)).required =
      (fields.filter (fun f => f.required)).map (fun f => f.name) ∧
    model_validate fields (Json.obj
      (((get_gemini_schema (json_schema_of fields)).required).map
        (fun n => (n, vals n)))) =
    some (fields.map (fun f =>
      (f.name, if f.required then coerceField f.ty (vals f.name) else none))) := by
  have hreq := gemini_required_of_fields fields hni
  refine ⟨hreq, ?_⟩
  show mapOpt _ fields = _
  rw [hreq]
  apply model_validate_members vals fields
  intro f hfmem
  constructor
  · intro hr
    refine ⟨alistGet_map_self _ vals f.name ?_, hvals f hfmem hr⟩
    exact List.mem_map.mpr ⟨f, List.mem_filter.mpr ⟨hfmem, by simpa using hr⟩, rfl⟩
  · intro hr
    apply alistGet_map_not_mem _ vals f.name
    intro hmem
    obtain ⟨g, hg, he⟩ := List.mem_map.mp hmem
    obtain ⟨hgmem, hgreq⟩ := List.mem_filter.mp hg
    have hfg : g = f := List.inj_on_of_nodup_map hnd hgmem hfmem he
    rw [hfg] at hgreq
    exact hr (by simpa using hgreq)

/-- Witness for C9 on a three-field schema (required string, optional
integer, required boolean). -/
theorem c9_witness :
    (get_gemini_schema (json_schema_of
      [⟨"alpha", .fstr, true⟩, ⟨"beta", .fint, false⟩, ⟨"gamma", .fbool, true⟩])).required =
      ["alpha", "gamma"] ∧
    model_validate
      [⟨"alpha", .fstr, true⟩, ⟨"beta", .fint, false⟩, ⟨"gamma", .fbool, true⟩]
      (Json.obj [("alpha", Json.str "x"), ("gamma", Json.boolean true)]) =
    some [("alpha", some (PyVal.vstr "x")), ("beta", none),
      ("gamma", some (PyVal.vbool true))] := by
  obtain ⟨h1, h2⟩ := c9_round_trip
    [⟨"alpha", .fstr, true⟩, ⟨"beta", .fint, false⟩, ⟨"gamma", .fbool, true⟩]
    (fun n => if n = "alpha" then Json.str "x"
      else if n = "gamma" then Json.boolean true else Json.null)
    (by decide) (by decide)
    (by intro f hf hr; fin_cases hf <;> first | rfl | exact absurd hr (by decide))
  exact ⟨h1.trans rfl, h2⟩

/-- **C10 counterexample**: a record type with a required bytes field forces
that field to appear as a template placeholder (else `TemplateError`), and
`str.format` then substitutes the Python `str()` of the bytes value into the
rendered prompt: for `image = b"abc"` the rendered text contains the byte
content `abc` inline, refuting "the rendered text never contains the bytes
value inline" — while the same value is also attached as media. -/
theorem c10_counterexample :
    get_placeholders "Image: \x7bimage\x7d" [("image", true)] = .ok ["image"] ∧
    renderPrompt "Image: \x7bimage\x7d" ["image"]
        ⟨[("image", PyVal.vbytes [97, 98, 99])]⟩ =
      some (String.mk ("Image: b".data ++ sq :: ("abc".data ++ [sq]))) ∧
    mediaDataOf (fun _ => none) [("image", PyVal.vbytes [97, 98, 99])] =
      ["data:application/octet-stream;base64,YWJj"] ∧
    isSubstring "abc".data ("Image: b".data ++ sq :: ("abc".data ++ [sq])) = true :=
  ⟨rfl, rfl, rfl, rfl⟩

/-- **C10 amended** (functional correctness): the media loop of
`process_single_input` turns exactly the bytes-valued fields, in
field-iteration order, into attachment strings of the form
`data:<mime>;base64,<base64 of the value>`, where the mime component is a
function of the field's NAME only (`mimetypes.guess_type(field_name)`),
falling back to `application/octet-stream` when nothing is guessed; the
attachments are passed alongside the rendered text, but a bytes field whose
placeholder occurs in the template is ALSO substituted inline into the
rendered text as its Python `str()` form. -/
theorem c10_media_encoding (guess : String → Option String)
    (fields : List (String × PyVal)) :
    mediaDataOf guess fields = (bytesFieldsOf fields).map (fun p =>
      "data:" ++ (guess p.1).getD "application/octet-stream" ++ ";base64," ++
        String.mk (base64Encode p.2)) := by
  induction fields with
  | nil => rfl
  | cons f rest ih =>
    obtain ⟨n, v⟩ := f
    cases v <;>
      simp only [mediaDataOf, bytesFieldsOf, List.filterMap_cons, List.map_cons,
        mediaItem] at ih ⊢ <;>
      rw [ih]

end LC
